import Mathlib

/-!
Verification of the kilo editing engine (C source, `kilo.c`).

The editor's mutable global `struct editorConfig E` is embedded as the
structure `EditorState`; row contents (`erow.chars`) are `List Char`.
`erow.render` is derived data: the program regenerates it via
`editorUpdateRow` after every content mutation, so wherever the C code
reads `row->render` we compute `editorUpdateRow row.chars`.
C `int` fields that are provably nonnegative in every editor state
(cursor coordinates, offsets, sizes) are embedded as `Nat`; the search
state's `last_match`/`direction`, which genuinely take the value -1,
are embedded as `Int`.
-/

/- Constants from the `#define`s and `enum editorKey`. -/

def KILO_TAB_STOP : Nat := 8

def KILO_QUIT_TIMES : Nat := 3

def BACKSPACE : Nat := 127

def ARROW_LEFT : Nat := 1000

def ARROW_RIGHT : Nat := 1001

def ARROW_UP : Nat := 1002

def ARROW_DOWN : Nat := 1003

def DEL_KEY : Nat := 1004

def HOME_KEY : Nat := 1005

def END_KEY : Nat := 1006

def PAGE_UP : Nat := 1007

def PAGE_DOWN : Nat := 1008

/-- The editor state: the fields of `struct editorConfig` that the verified
claims mention.  `filename`, `statusmsg`, `statusmsg_time` and
`orig_termios` are presentation/terminal data never read by the verified
operations and are omitted.  `rows` holds each row's `chars`; `render` is
recomputed from `chars` on demand (see module comment). -/
structure EditorState where
  cx : Nat
  cy : Nat
  rx : Nat
  rowoff : Nat
  coloff : Nat
  screenrows : Nat
  screencols : Nat
  rows : List (List Char)
  dirty : Nat
deriving DecidableEq, Repr

/- Row operations (`editorRowCxToRx`, `editorRowRxToCx`, `editorUpdateRow`). -/

/-- One iteration of the `editorRowCxToRx` loop body:
`if (chars[j] == '\t') rx += (KILO_TAB_STOP - 1) - (rx % KILO_TAB_STOP); rx++;`. -/
def rxAfter (rx : Nat) (c : Char) : Nat :=
  if c = '\t' then rx + ((KILO_TAB_STOP - 1) - rx % KILO_TAB_STOP) + 1
  else rx + 1

/-- `editorRowCxToRx(row, cx)`: runs the loop body for `j = 0 .. cx-1`
over `row->chars`, starting from `rx = 0`. -/
def editorRowCxToRx (chars : List Char) (cx : Nat) : Nat :=
  (chars.take cx).foldl rxAfter 0

/-- The loop of `editorRowRxToCx`: walks the row, accumulating `cur_rx`
exactly as `editorRowCxToRx` does, and returns the current `cx` as soon
as `cur_rx > rx`; falls off the end returning `row->size` otherwise. -/
def rxToCxGo (chars : List Char) (rx : Nat) (cx : Nat) (cur_rx : Nat) : Nat :=
  match chars with
  | [] => cx
  | c :: rest =>
    let cur_rx2 := rxAfter cur_rx c
    if cur_rx2 > rx then cx else rxToCxGo rest rx (cx + 1) cur_rx2

/-- `editorRowRxToCx(row, rx)`. -/
def editorRowRxToCx (chars : List Char) (rx : Nat) : Nat :=
  rxToCxGo chars rx 0 0

/-- The inner `while (idx % KILO_TAB_STOP != 0) row->render[idx++] = ' ';`
loop of `editorUpdateRow`, with one unit of fuel per loop iteration:
each iteration grows the length by 1, so the condition fails within
`KILO_TAB_STOP - 1` iterations and the fuel `KILO_TAB_STOP` that
`padToTabStop` passes never runs out (`padGo_closed_form`). -/
def padGo : Nat → List Char → List Char
  | 0, render => render
  | fuel + 1, render =>
    if render.length % KILO_TAB_STOP = 0 then render
    else padGo fuel (render ++ [' '])

/-- Keep appending spaces until the length is a multiple of the tab stop. -/
def padToTabStop (render : List Char) : List Char :=
  padGo KILO_TAB_STOP render

/-- One iteration of the `editorUpdateRow` copy loop: a tab emits one
space and then pads to the next tab stop; any other byte is copied. -/
def renderStep (render : List Char) (c : Char) : List Char :=
  if c = '\t' then padToTabStop (render ++ [' '])
  else render ++ [c]

/-- `editorUpdateRow(row)`: the render bytes rebuilt from `row->chars`. -/
def editorUpdateRow (chars : List Char) : List Char :=
  chars.foldl renderStep []

/- Row insert/delete on the document (`editorInsertRow`, `editorDelRow`)
and byte-level row edits (`editorRowInsertChar`, `editorRowDelChar`,
`editorRowAppendString`).  Each mirrors the C function including its
bounds guard and its `E.dirty++`. -/

/-- `editorInsertRow(at, s, len)`: guarded insertion of a row at index
`at` (the C guard `at < 0` cannot fire for `Nat`). -/
def editorInsertRow (st : EditorState) (at_ : Nat) (s : List Char) : EditorState :=
  if at_ > st.rows.length then st
  else { st with rows := st.rows.take at_ ++ [s] ++ st.rows.drop at_,
                 dirty := st.dirty + 1 }

/-- `editorDelRow(at)`: guarded removal of the row at index `at`. -/
def editorDelRow (st : EditorState) (at_ : Nat) : EditorState :=
  if at_ ≥ st.rows.length then st
  else { st with rows := st.rows.eraseIdx at_, dirty := st.dirty + 1 }

/-- `editorRowInsertChar(row, at, c)` on the row bytes: an out-of-range
`at` is clamped to the row length (append). -/
def editorRowInsertChar (chars : List Char) (at_ : Nat) (c : Char) : List Char :=
  let at2 := if at_ > chars.length then chars.length else at_
  chars.take at2 ++ [c] ++ chars.drop at2

/-- `editorInsertChar(c)`: at the virtual last line, first append an
empty row; then insert into the current row at `cx` and advance `cx`.
The row-level `E.dirty++` of `editorRowInsertChar` is applied here. -/
def editorInsertChar (st : EditorState) (c : Char) : EditorState :=
  let st1 := if st.cy = st.rows.length then editorInsertRow st st.rows.length [] else st
  let row := st1.rows.getD st1.cy []
  { st1 with rows := st1.rows.set st1.cy (editorRowInsertChar row st1.cx c),
             dirty := st1.dirty + 1,
             cx := st1.cx + 1 }

/-- `editorInsertNewline()`: at column 0 insert an empty row above;
otherwise insert the tail of the current row below and truncate the
current row at `cx` (the truncation itself does not touch `dirty`);
finally `cy++; cx = 0`. -/
def editorInsertNewline (st : EditorState) : EditorState :=
  let st1 :=
    if st.cx = 0 then editorInsertRow st st.cy []
    else
      let row := st.rows.getD st.cy []
      let st2 := editorInsertRow st (st.cy + 1) (row.drop st.cx)
      { st2 with rows := st2.rows.set st.cy (row.take st.cx) }
  { st1 with cy := st.cy + 1, cx := 0 }

/-- `editorDelChar()`.  The `cx > 0` branch inlines `editorRowDelChar`
(whose guard `at >= row->size` makes it a dirty-free no-op); the merge
branch sets `cx` to the previous row's length, appends the current row
to it (`editorRowAppendString`, `dirty++`), deletes the current row
(`editorDelRow`, `dirty++`) and decrements `cy`. -/
def editorDelChar (st : EditorState) : EditorState :=
  if st.cy = st.rows.length then st
  else if st.cx = 0 ∧ st.cy = 0 then st
  else
    let row := st.rows.getD st.cy []
    if 0 < st.cx then
      if st.cx - 1 ≥ row.length then { st with cx := st.cx - 1 }
      else { st with rows := st.rows.set st.cy (row.eraseIdx (st.cx - 1)),
                     cx := st.cx - 1,
                     dirty := st.dirty + 1 }
    else
      let prev := st.rows.getD (st.cy - 1) []
      let st1 := { st with cx := prev.length,
                           rows := st.rows.set (st.cy - 1) (prev ++ row),
                           dirty := st.dirty + 1 }
      let st2 := editorDelRow st1 st.cy
      { st2 with cy := st.cy - 1 }

/-- `editorRowsToString(&buflen)`: the serialized buffer together with
the reported `buflen` (computed, as in the C, as the separate sum of
`size + 1` over all rows). -/
def editorRowsToString (rows : List (List Char)) : List Char × Nat :=
  (rows.foldl (fun buf r => buf ++ r ++ ['\n']) [],
   rows.foldl (fun tot r => tot + (r.length + 1)) 0)

/- Cursor & viewport. -/

/-- `editorScroll()`: recompute `rx` from `(cy, cx)` and clamp
`rowoff`/`coloff` so the cursor is inside the window. -/
def editorScroll (st : EditorState) : EditorState :=
  let rx := if st.cy < st.rows.length
            then editorRowCxToRx (st.rows.getD st.cy []) st.cx else 0
  let rowoff1 := if st.cy < st.rowoff then st.cy else st.rowoff
  let rowoff2 := if st.cy ≥ rowoff1 + st.screenrows
                 then st.cy - st.screenrows + 1 else rowoff1
  let coloff1 := if rx < st.coloff then rx else st.coloff
  let coloff2 := if rx ≥ coloff1 + st.screencols
                 then rx - st.screencols + 1 else coloff1
  { st with rx := rx, rowoff := rowoff2, coloff := coloff2 }

/-- The tail of `editorMoveCursor`: clamp `cx` to the (possibly new)
current row's length (`0` past the last row). -/
def cursorClampCx (st : EditorState) : EditorState :=
  let rowlen := (st.rows.getD st.cy []).length
  if st.cx > rowlen then { st with cx := rowlen } else st

/-- `editorMoveCursor(key)`: the arrow-key `switch` followed by the `cx`
clamp.  The C pointer test `row && ...` is the condition
`cy < numrows`. -/
def editorMoveCursor (st : EditorState) (key : Nat) : EditorState :=
  let st1 :=
    if key = ARROW_LEFT then
      if st.cx ≠ 0 then { st with cx := st.cx - 1 }
      else if 0 < st.cy then
        { st with cy := st.cy - 1, cx := (st.rows.getD (st.cy - 1) []).length }
      else st
    else if key = ARROW_RIGHT then
      if st.cy < st.rows.length ∧ st.cx < (st.rows.getD st.cy []).length then
        { st with cx := st.cx + 1 }
      else if st.cy < st.rows.length ∧ st.cx = (st.rows.getD st.cy []).length then
        { st with cy := st.cy + 1, cx := 0 }
      else st
    else if key = ARROW_UP then
      if st.cy ≠ 0 then { st with cy := st.cy - 1 } else st
    else if key = ARROW_DOWN then
      if st.cy < st.rows.length then { st with cy := st.cy + 1 } else st
    else st
  cursorClampCx st1

/-- The `while (times--) editorMoveCursor(...)` loop of the page keys. -/
def moveCursorTimes (st : EditorState) (key : Nat) : Nat → EditorState
  | 0 => st
  | n + 1 => moveCursorTimes (editorMoveCursor st key) key n

/- Key processing (`editorProcessKeypress`).  `quit_times` is the C
`static int quit_times`; the result is (new state, new quit_times,
whether `exit(0)` was reached).  Key codes: `CTRL_KEY('q') = 17`,
`CTRL_KEY('s') = 19`, `CTRL_KEY('f') = 6`, `CTRL_KEY('h') = 8`,
`CTRL_KEY('l') = 12`, `'\r' = 13`, `'\x1b' = 27`.
`editorSave` (Ctrl-S) only touches `filename`/`dirty`/the status message
through the external persistence boundary and never the cursor or rows;
it is embedded as the identity on the modeled fields.  `editorFind`
(Ctrl-F) runs an interactive prompt session whose per-keystroke effect
is `editorFindCallback` below (and which restores the saved cursor and
offsets on cancel); its session is not replayed here, so the Ctrl-F case
keeps the state. -/

/-- `editorProcessKeypress()` for one decoded key `c`.  Every path except
the blocked-quit early `return` ends in `quit_times = KILO_QUIT_TIMES`. -/
def editorProcessKeypress (c : Nat) (st : EditorState) (quit_times : Nat) :
    EditorState × Nat × Bool :=
  if c = 13 then (editorInsertNewline st, KILO_QUIT_TIMES, false)
  else if c = 17 then
    if st.dirty ≠ 0 ∧ 0 < quit_times then (st, quit_times - 1, false)
    else (st, quit_times, true)
  else if c = 19 then (st, KILO_QUIT_TIMES, false)
  else if c = HOME_KEY then ({ st with cx := 0 }, KILO_QUIT_TIMES, false)
  else if c = END_KEY then
    ((if st.cy < st.rows.length
      then { st with cx := (st.rows.getD st.cy []).length } else st),
     KILO_QUIT_TIMES, false)
  else if c = 6 then (st, KILO_QUIT_TIMES, false)
  else if c = BACKSPACE ∨ c = 8 ∨ c = DEL_KEY then
    (editorDelChar (if c = DEL_KEY then editorMoveCursor st ARROW_RIGHT else st),
     KILO_QUIT_TIMES, false)
  else if c = PAGE_UP ∨ c = PAGE_DOWN then
    let st1 :=
      if c = PAGE_UP then { st with cy := st.rowoff }
      else
        let cy1 := st.rowoff + st.screenrows - 1
        { st with cy := if cy1 > st.rows.length then st.rows.length else cy1 }
    (moveCursorTimes st1 (if c = PAGE_UP then ARROW_UP else ARROW_DOWN) st.screenrows,
     KILO_QUIT_TIMES, false)
  else if c = ARROW_UP ∨ c = ARROW_DOWN ∨ c = ARROW_LEFT ∨ c = ARROW_RIGHT then
    (editorMoveCursor st c, KILO_QUIT_TIMES, false)
  else if c = 12 ∨ c = 27 then (st, KILO_QUIT_TIMES, false)
  else (editorInsertChar st (Char.ofNat c), KILO_QUIT_TIMES, false)

/- The key decoder (`editorReadKey`).  The input stream is a list of
raw bytes; a `read` that gets no byte corresponds to the list being
empty.  The first `read` loops until a byte arrives, so an empty stream
produces no event (`none`); every later short read returns `'\x1b'`.
The result pairs the decoded key with the unconsumed bytes. -/

/-- `editorReadKey()` on a byte stream.
Byte constants: `27 = ESC`, `91 = '['`, `79 = 'O'`, `126 = '~'`,
`48..57 = '0'..'9'`, `65/66/67/68 = 'A'/'B'/'C'/'D'`, `72 = 'H'`,
`70 = 'F'`. -/
def editorReadKey : List Nat → Option (Nat × List Nat)
  | [] => none
  | c :: input =>
    if c = 27 then
      match input with
      | [] => some (27, [])
      | s0 :: input1 =>
        match input1 with
        | [] => some (27, [])
        | s1 :: input2 =>
          if s0 = 91 then
            if 48 ≤ s1 ∧ s1 ≤ 57 then
              match input2 with
              | [] => some (27, [])
              | s2 :: input3 =>
                if s2 = 126 then
                  if s1 = 49 then some (HOME_KEY, input3)
                  else if s1 = 51 then some (DEL_KEY, input3)
                  else if s1 = 52 then some (END_KEY, input3)
                  else if s1 = 53 then some (PAGE_UP, input3)
                  else if s1 = 54 then some (PAGE_DOWN, input3)
                  else if s1 = 55 then some (HOME_KEY, input3)
                  else if s1 = 56 then some (END_KEY, input3)
                  else some (27, input3)
                else some (27, input3)
            else
              if s1 = 65 then some (ARROW_UP, input2)
              else if s1 = 66 then some (ARROW_DOWN, input2)
              else if s1 = 67 then some (ARROW_RIGHT, input2)
              else if s1 = 68 then some (ARROW_LEFT, input2)
              else if s1 = 72 then some (HOME_KEY, input2)
              else if s1 = 70 then some (END_KEY, input2)
              else some (27, input2)
          else if s0 = 79 then
            if s1 = 72 then some (HOME_KEY, input2)
            else if s1 = 70 then some (END_KEY, input2)
            else some (27, input2)
          else some (27, input2)
    else some (c, input)

/- The line prompt (`editorPrompt`). -/

/-- ASCII `iscntrl`: bytes 0-31 and 127. -/
def iscntrl (c : Nat) : Bool := c < 32 || c = 127

/-- Outcome of a prompt session run on a finite key list: `confirmed`
is a non-empty buffer returned on Enter, `cancelled` is the `NULL`
return on Escape, `pending` means the key list ran out with the prompt
still open (the C loop would block for the next key). -/
inductive PromptResult where
  | confirmed : List Char → PromptResult
  | cancelled : PromptResult
  | pending : List Char → PromptResult
deriving DecidableEq, Repr

/-- `editorPrompt(prompt, callback)` driven by a list of decoded keys.
The callback is embedded as a state transformer `σ → σ` invoked exactly
where the C invokes the function pointer: once per keystroke, with the
buffer as updated by that keystroke, including on the confirming Enter
and the cancelling Escape. -/
def editorPrompt {σ : Type} (callback : List Char → Nat → σ → σ) :
    List Nat → List Char → σ → PromptResult × σ
  | [], buf, s => (.pending buf, s)
  | c :: keys, buf, s =>
    if c = DEL_KEY ∨ c = 8 ∨ c = BACKSPACE then
      let buf2 := buf.dropLast
      editorPrompt callback keys buf2 (callback buf2 c s)
    else if c = 27 then
      (.cancelled, callback buf c s)
    else if c = 13 then
      if buf.length ≠ 0 then (.confirmed buf, callback buf c s)
      else editorPrompt callback keys buf (callback buf c s)
    else if iscntrl c = false ∧ c < 128 then
      let buf2 := buf ++ [Char.ofNat c]
      editorPrompt callback keys buf2 (callback buf2 c s)
    else
      editorPrompt callback keys buf (callback buf c s)

/- Incremental search (`editorFindCallback`). -/

/-- The two `static` variables of `editorFindCallback`. -/
structure FindState where
  last_match : Int
  direction : Int
deriving DecidableEq, Repr

/-- C `strstr` offset: index of the first occurrence of `needle` in
`hay`, `none` if absent (an empty needle matches at offset 0). -/
def strstr (hay needle : List Char) : Option Nat :=
  if needle.isPrefixOf hay then some 0
  else
    match hay with
    | [] => none
    | _ :: rest => (strstr rest needle).map (· + 1)

/-- The `for (int i = 0; i < E.numrows; i++)` search loop: step `current`
by `direction`, wrap at both ends, and return the first row whose render
text contains the query, with the match offset.  The program keeps
`row->render` equal to `editorUpdateRow` of the row's chars, so the
render is recomputed here. -/
def findLoop (rows : List (List Char)) (query : List Char) :
    Int → Int → Nat → Option (Nat × Nat)
  | _, _, 0 => none
  | current, direction, fuel + 1 =>
    let cur1 := current + direction
    let cur2 := if cur1 = -1 then (rows.length : Int) - 1
                else if cur1 = (rows.length : Int) then 0
                else cur1
    match strstr (editorUpdateRow (rows.getD cur2.toNat [])) query with
    | some off => some (cur2.toNat, off)
    | none => findLoop rows query cur2 direction fuel

/-- `editorFindCallback(query, key)` acting on the editor state and the
static search state.  BUG kept faithfully: the C dispatch condition is
`key == ARROW_RIGHT || ARROW_DOWN`, i.e.
`(key == ARROW_RIGHT) || (ARROW_DOWN != 0)`; since `ARROW_DOWN` is the
constant 1003 the right disjunct is always true, so this branch fires
for every key other than Enter/Escape and the two following branches
are dead. -/
def editorFindCallback (st : EditorState) (fs : FindState)
    (query : List Char) (key : Nat) : EditorState × FindState :=
  if key = 13 ∨ key = 27 then
    (st, { last_match := -1, direction := 1 })
  else
    let fs1 :=
      if key = ARROW_RIGHT ∨ (ARROW_DOWN : Nat) ≠ 0 then { fs with direction := 1 }
      else if key = ARROW_LEFT ∨ key = ARROW_UP then { fs with direction := -1 }
      else { last_match := -1, direction := 1 }
    let fs2 := if fs1.last_match = -1 then { fs1 with direction := 1 } else fs1
    match findLoop st.rows query fs2.last_match fs2.direction st.rows.length with
    | some (r, off) =>
      ({ st with cy := r,
                 cx := editorRowRxToCx (st.rows.getD r []) off,
                 rowoff := st.rows.length },
       { fs2 with last_match := (r : Int) })
    | none => (st, fs2)

/- The cursor bounds invariant (claim C10). -/

/-- Cursor bounds: `cy` at most the row count, `cx` at most the current
row's length (`List.getD` yields `[]`, hence length 0, at the virtual
line `cy = numrows`), and `cx = 0` on the virtual line. -/
def editorInv (st : EditorState) : Prop :=
  st.cy ≤ st.rows.length ∧
  st.cx ≤ (st.rows.getD st.cy []).length ∧
  (st.cy = st.rows.length → st.cx = 0)

instance (st : EditorState) : Decidable (editorInv st) := by
  unfold editorInv; infer_instance

/- Spec-side model for the refinement part of claim C5. -/

/-- Modelled from the spec's words (§3 Row, §8 Testable Properties): a
tab is expanded "to the next multiple of a fixed tab stop (default 8)
using spaces"; any other byte is copied with "no other transformation". -/
def renderSpecStep (acc : List Char) (c : Char) : List Char :=
  if c = '\t' then acc ++ List.replicate (KILO_TAB_STOP - acc.length % KILO_TAB_STOP) ' '
  else acc ++ [c]

/-- Modelled from the spec's words: the whole-row render derivation. -/
def renderRowSpec (chars : List Char) : List Char :=
  chars.foldl renderSpecStep []

/- Helper lemmas. -/

/-- Closed form of the padding loop, for any sufficient fuel. -/
lemma padGo_closed_form (fuel : Nat) :
    ∀ render : List Char,
      (KILO_TAB_STOP - render.length % KILO_TAB_STOP) % KILO_TAB_STOP ≤ fuel →
      padGo fuel render =
        render ++ List.replicate
          ((KILO_TAB_STOP - render.length % KILO_TAB_STOP) % KILO_TAB_STOP) ' ' := by
  induction fuel with
  | zero =>
    intro render h
    have h0 : (KILO_TAB_STOP - render.length % KILO_TAB_STOP) % KILO_TAB_STOP = 0 := by
      omega
    simp [padGo, h0]
  | succ n ih =>
    intro render h
    by_cases hmod : render.length % KILO_TAB_STOP = 0
    · simp only [padGo, if_pos hmod]
      rw [hmod]
      simp [KILO_TAB_STOP]
    · have hlen : (render ++ [' ']).length = render.length + 1 := by simp
      have hm : (KILO_TAB_STOP - (render ++ [' ']).length % KILO_TAB_STOP) % KILO_TAB_STOP
          + 1 = (KILO_TAB_STOP - render.length % KILO_TAB_STOP) % KILO_TAB_STOP := by
        rw [hlen]; simp only [KILO_TAB_STOP] at *; omega
      have hle : (KILO_TAB_STOP - (render ++ [' ']).length % KILO_TAB_STOP) % KILO_TAB_STOP
          ≤ n := by omega
      rw [padGo, if_neg hmod, ih (render ++ [' ']) hle, List.append_assoc, ← hm,
        List.replicate_succ]
      rfl

/-- The source's padding loop agrees with the spec's replicate form. -/
lemma padToTabStop_eq (render : List Char) :
    padToTabStop render =
      render ++ List.replicate
        ((KILO_TAB_STOP - render.length % KILO_TAB_STOP) % KILO_TAB_STOP) ' ' := by
  apply padGo_closed_form
  simp only [KILO_TAB_STOP]; omega

/-- Per-character agreement of the source's render loop body with the
spec's expansion rule. -/
lemma renderStep_eq_spec : renderStep = renderSpecStep := by
  funext acc c
  unfold renderStep renderSpecStep
  by_cases hc : c = '\t'
  · rw [if_pos hc, if_pos hc, padToTabStop_eq, List.append_assoc]
    have hm : ((KILO_TAB_STOP - (acc ++ [' ']).length % KILO_TAB_STOP) % KILO_TAB_STOP)
        + 1 = KILO_TAB_STOP - acc.length % KILO_TAB_STOP := by
      simp only [List.length_append, List.length_cons, List.length_nil, KILO_TAB_STOP]
      omega
    rw [← hm, List.replicate_succ]
    rfl
  · rw [if_neg hc, if_neg hc]

/-- `editorUpdateRow` agrees with the spec's render derivation. -/
lemma editorUpdateRow_eq_spec (chars : List Char) :
    editorUpdateRow chars = renderRowSpec chars := by
  unfold editorUpdateRow renderRowSpec
  rw [renderStep_eq_spec]

/-- Each step of the render-column walk strictly increases the column. -/
lemma rxAfter_lt (r : Nat) (c : Char) : r < rxAfter r c := by
  unfold rxAfter
  split <;> omega

/-- The render-column walk never decreases the column. -/
lemma foldl_rxAfter_le (l : List Char) : ∀ r : Nat, r ≤ l.foldl rxAfter r := by
  induction l with
  | nil => intro r; exact Nat.le_refl r
  | cons c t ih =>
    intro r
    exact Nat.le_trans (rxAfter_lt r c).le (ih (rxAfter r c))

/-- The `editorRowRxToCx` loop, handed the render column of a cursor
boundary `cx`, stops exactly at `cx` (shifted by the loop counter). -/
lemma rxToCxGo_roundtrip (chars : List Char) :
    ∀ cx cx0 r0 : Nat, cx ≤ chars.length →
      rxToCxGo chars ((chars.take cx).foldl rxAfter r0) cx0 r0 = cx0 + cx := by
  induction chars with
  | nil =>
    intro cx cx0 r0 h
    have hcx : cx = 0 := Nat.le_zero.mp h
    simp [rxToCxGo, hcx]
  | cons c rest ih =>
    intro cx cx0 r0 h
    cases cx with
    | zero =>
      simp only [List.take_zero, List.foldl_nil, rxToCxGo]
      rw [if_pos (rxAfter_lt r0 c)]
      omega
    | succ n =>
      simp only [List.take_succ_cons, List.foldl_cons, rxToCxGo]
      have hle : rxAfter r0 c ≤ (rest.take n).foldl rxAfter (rxAfter r0 c) :=
        foldl_rxAfter_le _ _
      rw [if_neg (by omega)]
      have hn : n ≤ rest.length := by simpa using h
      rw [ih n (cx0 + 1) (rxAfter r0 c) hn]
      omega

/-- The `editorRowRxToCx` loop never returns past the row length. -/
lemma rxToCxGo_le (chars : List Char) :
    ∀ rx cx0 r0 : Nat, rxToCxGo chars rx cx0 r0 ≤ cx0 + chars.length := by
  induction chars with
  | nil => intro rx cx0 r0; simp [rxToCxGo]
  | cons c rest ih =>
    intro rx cx0 r0
    simp only [rxToCxGo, List.length_cons]
    split
    · omega
    · have := ih rx (cx0 + 1) (rxAfter r0 c)
      omega

/-- `editorRowRxToCx` returns a valid cursor position. -/
lemma editorRowRxToCx_le (chars : List Char) (rx : Nat) :
    editorRowRxToCx chars rx ≤ chars.length := by
  have := rxToCxGo_le chars rx 0 0
  simpa [editorRowRxToCx] using this

/- Claim theorems. -/

/-- C3: for every editor state with `screenrows > 0` and
`screencols > 0`, after `editorScroll` the cursor is inside the visible
window: `rowoff ≤ cy < rowoff + screenrows` and
`coloff ≤ rx < coloff + screencols`, where `rx` is the render column
the call just computed from `(cy, cx)`. -/
theorem c3_scroll_cursor_visible (st : EditorState)
    (hr : 0 < st.screenrows) (hc : 0 < st.screencols) :
    (editorScroll st).rowoff ≤ (editorScroll st).cy ∧
    (editorScroll st).cy < (editorScroll st).rowoff + (editorScroll st).screenrows ∧
    (editorScroll st).coloff ≤ (editorScroll st).rx ∧
    (editorScroll st).rx < (editorScroll st).coloff + (editorScroll st).screencols := by
  unfold editorScroll
  dsimp only
  split_ifs <;> refine ⟨by omega, by omega, by omega, by omega⟩

/-- C3 witness, at a state the search callback just left
(`rowoff = numrows`, forced scroll-to-top). -/
theorem c3_scroll_cursor_visible_witness :
    (0 : Nat) <
        (EditorState.mk 0 0 0 1 0 1 1 [['a']] 0).screenrows ∧
    (0 : Nat) <
        (EditorState.mk 0 0 0 1 0 1 1 [['a']] 0).screencols ∧
    ((editorScroll (EditorState.mk 0 0 0 1 0 1 1 [['a']] 0)).rowoff ≤
        (editorScroll (EditorState.mk 0 0 0 1 0 1 1 [['a']] 0)).cy ∧
     (editorScroll (EditorState.mk 0 0 0 1 0 1 1 [['a']] 0)).cy <
        (editorScroll (EditorState.mk 0 0 0 1 0 1 1 [['a']] 0)).rowoff +
          (editorScroll (EditorState.mk 0 0 0 1 0 1 1 [['a']] 0)).screenrows ∧
     (editorScroll (EditorState.mk 0 0 0 1 0 1 1 [['a']] 0)).coloff ≤
        (editorScroll (EditorState.mk 0 0 0 1 0 1 1 [['a']] 0)).rx ∧
     (editorScroll (EditorState.mk 0 0 0 1 0 1 1 [['a']] 0)).rx <
        (editorScroll (EditorState.mk 0 0 0 1 0 1 1 [['a']] 0)).coloff +
          (editorScroll (EditorState.mk 0 0 0 1 0 1 1 [['a']] 0)).screencols) :=
  ⟨by decide, by decide,
   c3_scroll_cursor_visible (EditorState.mk 0 0 0 1 0 1 1 [['a']] 0)
     (by decide) (by decide)⟩

/-- C4: for `0 ≤ cx ≤ row.length` (the append position included),
`editorRowRxToCx` applied to `editorRowCxToRx row cx` returns `cx`.
The claim's proviso ("cx does not land inside a tab's expansion") is
automatically satisfied: the render column of a cursor boundary is never
interior to a tab, so the round trip holds for every such `cx`. -/
theorem c4_rx_cx_roundtrip (chars : List Char) (cx : Nat)
    (h : cx ≤ chars.length) :
    editorRowRxToCx chars (editorRowCxToRx chars cx) = cx := by
  unfold editorRowRxToCx editorRowCxToRx
  simpa using rxToCxGo_roundtrip chars cx 0 0 h

/-- C4 witness: a row with a tab, at the cursor boundary just past the
tab. -/
theorem c4_rx_cx_roundtrip_witness :
    2 ≤ (['a', '\t', 'b'] : List Char).length ∧
    editorRowRxToCx ['a', '\t', 'b'] (editorRowCxToRx ['a', '\t', 'b'] 2) = 2 :=
  ⟨by decide, c4_rx_cx_roundtrip ['a', '\t', 'b'] 2 (by decide)⟩

/-- C5: `editorUpdateRow` coincides with the spec's transformation
(each tab becomes spaces up to the next multiple of the tab stop, every
other byte is copied unchanged); a single tab at position 0 renders to
exactly 8 spaces; a tab whose expansion starts at render column 6
expands to exactly 2 spaces, landing the next character at render
column 8. -/
theorem c5_update_row_tab_expansion :
    (∀ chars, editorUpdateRow chars = renderRowSpec chars) ∧
    editorUpdateRow ['\t'] = List.replicate KILO_TAB_STOP ' ' ∧
    editorUpdateRow ['a', 'b', 'c', 'd', 'e', 'f', '\t', 'X'] =
      ['a', 'b', 'c', 'd', 'e', 'f'] ++ List.replicate 2 ' ' ++ ['X'] := by
  refine ⟨editorUpdateRow_eq_spec, ?_, ?_⟩
  · rw [editorUpdateRow_eq_spec]
    decide
  · rw [editorUpdateRow_eq_spec]
    decide

/-- The serialization fold appends each row plus a newline. -/
lemma foldl_rows_buf (rows : List (List Char)) :
    ∀ acc : List Char,
      rows.foldl (fun buf r => buf ++ r ++ ['\n']) acc =
        acc ++ (rows.map (fun r => r ++ ['\n'])).flatten := by
  induction rows with
  | nil => intro acc; simp
  | cons r rest ih =>
    intro acc
    rw [List.foldl_cons, ih]
    simp

/-- The length fold adds each row's length plus one. -/
lemma foldl_rows_len (rows : List (List Char)) :
    ∀ t : Nat,
      rows.foldl (fun tot r => tot + (r.length + 1)) t =
        t + ((rows.map (fun r => r ++ ['\n'])).flatten).length := by
  induction rows with
  | nil => intro t; simp
  | cons r rest ih =>
    intro t
    simp [ih]
    omega

/-- C6: `editorRowsToString` produces exactly the concatenation of each
row's content followed by one newline (the last row included) and
reports the buffer's exact byte length; and the end-to-end scenario —
document `["line one", "line two"]`, cursor moved to the end of line 1
(End key), newline inserted (Enter), `'X'` typed — serializes to
`"line one\nX\nline two\n"` with length 20. -/
theorem c6_rows_to_string :
    (∀ rows, (editorRowsToString rows).1 = (rows.map (fun r => r ++ ['\n'])).flatten ∧
       (editorRowsToString rows).2 = (editorRowsToString rows).1.length) ∧
    editorRowsToString
        (editorProcessKeypress 88
          ((editorProcessKeypress 13
            ((editorProcessKeypress END_KEY
              (EditorState.mk 0 0 0 0 0 10 10
                ["line one".toList, "line two".toList] 0)
              KILO_QUIT_TIMES).1)
            KILO_QUIT_TIMES).1)
          KILO_QUIT_TIMES).1.rows =
      ("line one\nX\nline two\n".toList, 20) := by
  refine ⟨fun rows => ⟨?_, ?_⟩, ?_⟩
  · simpa [editorRowsToString] using foldl_rows_buf rows []
  · have h1 := foldl_rows_buf rows []
    have h2 := foldl_rows_len rows 0
    simp only [editorRowsToString] at *
    rw [h1, h2]
    simp
  · decide

/-- C8: `editorDelChar` is a no-op at the virtual last line
(`cy = numrows`) and at the document start (`cx = 0` and `cy = 0`);
with `cx > 0` it removes the byte at `cx - 1` of the current row and
decrements `cx`; with `cx = 0` and `cy > 0` it appends the current
row's content to the previous row, deletes the current row, decrements
`cy`, and sets `cx` to the previous row's length from before the
append. -/
theorem c8_del_char (st : EditorState) :
    (st.cy = st.rows.length → editorDelChar st = st) ∧
    (st.cx = 0 → st.cy = 0 → editorDelChar st = st) ∧
    (st.cy < st.rows.length → 0 < st.cx →
      st.cx ≤ (st.rows.getD st.cy []).length →
      (editorDelChar st).rows =
          st.rows.set st.cy ((st.rows.getD st.cy []).eraseIdx (st.cx - 1)) ∧
      (editorDelChar st).cx = st.cx - 1 ∧
      (editorDelChar st).cy = st.cy) ∧
    (st.cy < st.rows.length → st.cx = 0 → 0 < st.cy →
      (editorDelChar st).rows =
          (st.rows.set (st.cy - 1)
            (st.rows.getD (st.cy - 1) [] ++ st.rows.getD st.cy [])).eraseIdx st.cy ∧
      (editorDelChar st).cy = st.cy - 1 ∧
      (editorDelChar st).cx = (st.rows.getD (st.cy - 1) []).length) := by
  refine ⟨?_, ?_, ?_, ?_⟩
  · intro h
    unfold editorDelChar
    rw [if_pos h]
  · intro hx hy
    unfold editorDelChar
    by_cases h : st.cy = st.rows.length
    · rw [if_pos h]
    · rw [if_neg h, if_pos ⟨hx, hy⟩]
  · intro hlt hx hle
    have hne : ¬ st.cy = st.rows.length := Nat.ne_of_lt hlt
    have hnz : ¬ (st.cx = 0 ∧ st.cy = 0) := fun h => by omega
    have hguard : ¬ st.cx - 1 ≥ (st.rows.getD st.cy []).length := by omega
    unfold editorDelChar
    rw [if_neg hne, if_neg hnz]
    dsimp only
    rw [if_pos hx, if_neg hguard]
    exact ⟨rfl, rfl, rfl⟩
  · intro hlt hx hy
    have hne : ¬ st.cy = st.rows.length := Nat.ne_of_lt hlt
    have hnz : ¬ (st.cx = 0 ∧ st.cy = 0) := fun h => by omega
    have hnx : ¬ 0 < st.cx := by omega
    unfold editorDelChar editorDelRow
    rw [if_neg hne, if_neg hnz]
    dsimp only
    rw [if_neg hnx]
    have hguard : ¬ st.cy ≥
        (st.rows.set (st.cy - 1)
          (st.rows.getD (st.cy - 1) [] ++ st.rows.getD st.cy [])).length := by
      simpa using hlt
    rw [if_neg hguard]
    exact ⟨rfl, rfl, rfl⟩

/-- C8 witness: both edit branches on a concrete two-row document. -/
theorem c8_del_char_witness :
    ((EditorState.mk 1 0 0 0 0 10 10 [['a', 'b'], ['c']] 0).cy <
        (EditorState.mk 1 0 0 0 0 10 10 [['a', 'b'], ['c']] 0).rows.length ∧
     (editorDelChar (EditorState.mk 1 0 0 0 0 10 10 [['a', 'b'], ['c']] 0)).rows =
        [['b'], ['c']] ∧
     (editorDelChar (EditorState.mk 1 0 0 0 0 10 10 [['a', 'b'], ['c']] 0)).cx = 0) ∧
    ((editorDelChar (EditorState.mk 0 1 0 0 0 10 10 [['a', 'b'], ['c']] 0)).rows =
        [['a', 'b', 'c']] ∧
     (editorDelChar (EditorState.mk 0 1 0 0 0 10 10 [['a', 'b'], ['c']] 0)).cy = 0 ∧
     (editorDelChar (EditorState.mk 0 1 0 0 0 10 10 [['a', 'b'], ['c']] 0)).cx = 2) := by
  have h3 := (c8_del_char (EditorState.mk 1 0 0 0 0 10 10 [['a', 'b'], ['c']] 0)).2.2.1
    (by decide) (by decide) (by decide)
  have h4 := (c8_del_char (EditorState.mk 0 1 0 0 0 10 10 [['a', 'b'], ['c']] 0)).2.2.2
    (by decide) (by decide) (by decide)
  refine ⟨⟨by decide, ?_, ?_⟩, ?_, ?_, ?_⟩
  · rw [h3.1]; decide
  · rw [h3.2.1]; decide
  · rw [h4.1]; decide
  · rw [h4.2.1]; decide
  · rw [h4.2.2]; decide

/-- C1 (evaluation of the code at the failing inputs): the dispatch
condition `key == ARROW_RIGHT || ARROW_DOWN` is true for every key, so
an ArrowLeft keystroke during a search leaves the direction forward
(`+1`) where the claim requires backward (`-1`), and an ordinary
character keystroke (`'a'`) leaves the match anchor `last_match = 0`
unchanged where the claim requires it reset to none (`-1`). -/
theorem c1_find_direction_slip :
    (editorFindCallback (EditorState.mk 0 0 0 0 0 10 10 [['b']] 0)
        (FindState.mk 0 1) ['z'] ARROW_LEFT).2 = FindState.mk 0 1 ∧
    (editorFindCallback (EditorState.mk 0 0 0 0 0 10 10 [['b']] 0)
        (FindState.mk 0 1) ['z'] 97).2 = FindState.mk 0 1 := by
  constructor <;> decide

set_option maxHeartbeats 1000000 in
/-- C2: with a clean document a quit request (Ctrl-Q, code 17) proceeds
at once; with a dirty document and the guard counter at its threshold
3, three consecutive quit requests are blocked (counter 3 → 2 → 1 → 0,
editor state untouched) — so three quit requests with no intervening
keystroke are required before the quit proceeds — and the next quit
request, with the counter at 0, proceeds; every non-quit keystroke
resets the counter to the threshold 3. -/
theorem c2_quit_guard (st : EditorState) (qt : Nat) :
    (st.dirty = 0 → (editorProcessKeypress 17 st qt).2.2 = true) ∧
    (st.dirty ≠ 0 →
      editorProcessKeypress 17 st 3 = (st, 2, false) ∧
      editorProcessKeypress 17 st 2 = (st, 1, false) ∧
      editorProcessKeypress 17 st 1 = (st, 0, false) ∧
      (editorProcessKeypress 17 st 0).2.2 = true) ∧
    (∀ c, c ≠ 17 → (editorProcessKeypress c st qt).2.1 = 3) := by
  refine ⟨?_, ?_, ?_⟩
  · intro h0
    simp [editorProcessKeypress, h0]
  · intro hd
    refine ⟨?_, ?_, ?_, ?_⟩ <;> simp [editorProcessKeypress, hd]
  · intro c hc
    unfold editorProcessKeypress
    split_ifs <;> rfl

/-- C2 witness: a clean and a dirty concrete document. -/
theorem c2_quit_guard_witness :
    (editorProcessKeypress 17 (EditorState.mk 0 0 0 0 0 10 10 [] 0) 3).2.2 = true ∧
    editorProcessKeypress 17 (EditorState.mk 0 0 0 0 0 10 10 [] 5) 3 =
      (EditorState.mk 0 0 0 0 0 10 10 [] 5, 2, false) ∧
    editorProcessKeypress 17 (EditorState.mk 0 0 0 0 0 10 10 [] 5) 2 =
      (EditorState.mk 0 0 0 0 0 10 10 [] 5, 1, false) ∧
    editorProcessKeypress 17 (EditorState.mk 0 0 0 0 0 10 10 [] 5) 1 =
      (EditorState.mk 0 0 0 0 0 10 10 [] 5, 0, false) ∧
    (editorProcessKeypress 17 (EditorState.mk 0 0 0 0 0 10 10 [] 5) 0).2.2 = true ∧
    (editorProcessKeypress 97 (EditorState.mk 0 0 0 0 0 10 10 [] 5) 7).2.1 = 3 := by
  have hclean := (c2_quit_guard (EditorState.mk 0 0 0 0 0 10 10 [] 0) 3).1 rfl
  have hdirty := (c2_quit_guard (EditorState.mk 0 0 0 0 0 10 10 [] 5) 3).2.1 (by decide)
  have hreset := (c2_quit_guard (EditorState.mk 0 0 0 0 0 10 10 [] 5) 7).2.2 97 (by decide)
  exact ⟨hclean, hdirty.1, hdirty.2.1, hdirty.2.2.1, hdirty.2.2.2, hreset⟩

/-- Every decode of a non-empty byte stream yields an event: all leaves
of the decoder are `some`. -/
lemma editorReadKey_isSome : ∀ (c : Nat) (input : List Nat),
    (editorReadKey (c :: input)).isSome = true := by
  intro c input
  by_cases hc : c = 27
  · subst hc
    rcases input with _ | ⟨s0, rest1⟩
    · rfl
    rcases rest1 with _ | ⟨s1, rest2⟩
    · rfl
    rcases rest2 with _ | ⟨s2, rest3⟩ <;>
      · simp only [editorReadKey]
        simp [apply_ite Option.isSome]
  · simp [editorReadKey, hc]

/-- The decoder never fails on non-empty input. -/
lemma editorReadKey_total : ∀ input : List Nat, input ≠ [] →
    ∃ k rest, editorReadKey input = some (k, rest) := by
  intro input hne
  rcases input with _ | ⟨c, rest⟩
  · exact absurd rfl hne
  rcases hk : editorReadKey (c :: rest) with _ | ⟨k, r⟩
  · have := editorReadKey_isSome c rest
    rw [hk] at this
    exact absurd this (by simp)
  · exact ⟨k, r, rfl⟩

/-- C7: the key decoder produces exactly one key event per call: a
non-escape byte is returned literally; every recognized escape sequence
maps to its named key (`[A/B/C/D` arrows, `[H`/`OH`/`[1~`/`[7~` Home,
`[F`/`OF`/`[4~`/`[8~` End, `[3~` Delete, `[5~` PageUp, `[6~` PageDown);
every other escape-prefixed sequence — cut short, unknown introducer,
unknown letter, digit without `~`, or unmapped digit — yields the bare
Escape key (27); and on any non-empty input the decoder returns an
event, never an error. -/
theorem c7_read_key :
    (∀ c input, c ≠ 27 → editorReadKey (c :: input) = some (c, input)) ∧
    (∀ input : List Nat,
      editorReadKey (27 :: 91 :: 65 :: input) = some (ARROW_UP, input) ∧
      editorReadKey (27 :: 91 :: 66 :: input) = some (ARROW_DOWN, input) ∧
      editorReadKey (27 :: 91 :: 67 :: input) = some (ARROW_RIGHT, input) ∧
      editorReadKey (27 :: 91 :: 68 :: input) = some (ARROW_LEFT, input) ∧
      editorReadKey (27 :: 91 :: 72 :: input) = some (HOME_KEY, input) ∧
      editorReadKey (27 :: 91 :: 70 :: input) = some (END_KEY, input) ∧
      editorReadKey (27 :: 79 :: 72 :: input) = some (HOME_KEY, input) ∧
      editorReadKey (27 :: 79 :: 70 :: input) = some (END_KEY, input) ∧
      editorReadKey (27 :: 91 :: 49 :: 126 :: input) = some (HOME_KEY, input) ∧
      editorReadKey (27 :: 91 :: 51 :: 126 :: input) = some (DEL_KEY, input) ∧
      editorReadKey (27 :: 91 :: 52 :: 126 :: input) = some (END_KEY, input) ∧
      editorReadKey (27 :: 91 :: 53 :: 126 :: input) = some (PAGE_UP, input) ∧
      editorReadKey (27 :: 91 :: 54 :: 126 :: input) = some (PAGE_DOWN, input) ∧
      editorReadKey (27 :: 91 :: 55 :: 126 :: input) = some (HOME_KEY, input) ∧
      editorReadKey (27 :: 91 :: 56 :: 126 :: input) = some (END_KEY, input)) ∧
    (editorReadKey [27] = some (27, []) ∧
     (∀ s0, editorReadKey [27, s0] = some (27, [])) ∧
     (∀ d, 48 ≤ d → d ≤ 57 → editorReadKey [27, 91, d] = some (27, []))) ∧
    (∀ s0 s1 input, s0 ≠ 91 → s0 ≠ 79 →
      editorReadKey (27 :: s0 :: s1 :: input) = some (27, input)) ∧
    (∀ s1 input, ¬(48 ≤ s1 ∧ s1 ≤ 57) → s1 ≠ 65 → s1 ≠ 66 → s1 ≠ 67 →
      s1 ≠ 68 → s1 ≠ 72 → s1 ≠ 70 →
      editorReadKey (27 :: 91 :: s1 :: input) = some (27, input)) ∧
    (∀ d s2 input, 48 ≤ d → d ≤ 57 → s2 ≠ 126 →
      editorReadKey (27 :: 91 :: d :: s2 :: input) = some (27, input)) ∧
    (∀ input : List Nat,
      editorReadKey (27 :: 91 :: 48 :: 126 :: input) = some (27, input) ∧
      editorReadKey (27 :: 91 :: 50 :: 126 :: input) = some (27, input) ∧
      editorReadKey (27 :: 91 :: 57 :: 126 :: input) = some (27, input)) ∧
    (∀ s1 input, s1 ≠ 72 → s1 ≠ 70 →
      editorReadKey (27 :: 79 :: s1 :: input) = some (27, input)) ∧
    (∀ input : List Nat, input ≠ [] →
      ∃ k rest, editorReadKey input = some (k, rest)) := by
  refine ⟨?_, ?_, ⟨?_, ?_, ?_⟩, ?_, ?_, ?_, ?_, ?_, ?_⟩
  · intro c input hc
    simp [editorReadKey, hc]
  · intro input
    refine ⟨?_, ?_, ?_, ?_, ?_, ?_, ?_, ?_, ?_, ?_, ?_, ?_, ?_, ?_, ?_⟩ <;>
      simp [editorReadKey]
  · simp [editorReadKey]
  · intro s0
    simp [editorReadKey]
  · intro d h1 h2
    simp [editorReadKey, h1, h2]
  · intro s0 s1 input h0 h1
    simp [editorReadKey, h0, h1]
  · intro s1 input h0 h1 h2 h3 h4 h5 h6
    simp [editorReadKey, h0, h1, h2, h3, h4, h5, h6]
  · intro d s2 input h1 h2 h3
    simp [editorReadKey, h1, h2, h3]
  · intro input
    refine ⟨?_, ?_, ?_⟩ <;> simp [editorReadKey]
  · intro s1 input h1 h2
    simp [editorReadKey, h1, h2]
  · exact editorReadKey_total

/-- C7 witness: one concrete instance of each hypothesis-guarded decode
path (literal byte, unknown introducer, unknown letter after `[`,
digit without `~`, short read after a digit, unknown letter after `O`,
and totality). -/
theorem c7_read_key_witness :
    editorReadKey [104] = some (104, []) ∧
    editorReadKey [27, 90, 35, 7] = some (27, [7]) ∧
    editorReadKey [27, 91, 90, 5] = some (27, [5]) ∧
    editorReadKey [27, 91, 53, 53, 9] = some (27, [9]) ∧
    editorReadKey [27, 91, 53] = some (27, []) ∧
    editorReadKey [27, 79, 65, 4] = some (27, [4]) ∧
    ∃ k rest, editorReadKey [1, 2, 3] = some (k, rest) :=
  ⟨c7_read_key.1 104 [] (by decide),
   c7_read_key.2.2.2.1 90 35 [7] (by decide) (by decide),
   c7_read_key.2.2.2.2.1 90 [5] (by decide) (by decide) (by decide) (by decide)
     (by decide) (by decide) (by decide),
   c7_read_key.2.2.2.2.2.1 53 53 [9] (by decide) (by decide) (by decide),
   c7_read_key.2.2.1.2.2 53 (by decide) (by decide),
   c7_read_key.2.2.2.2.2.2.2.1 65 [4] (by decide) (by decide),
   c7_read_key.2.2.2.2.2.2.2.2 [1, 2, 3] (by decide)⟩

/-- A byte below 128 round-trips through `Char.ofNat`. -/
lemma toNat_ofNat_of_lt (c : Nat) (h : c < 128) : (Char.ofNat c).toNat = c := by
  have hv : Nat.isValidChar c := Or.inl (by omega)
  simp [Char.ofNat, hv, Char.ofNatAux, Char.toNat, UInt32.toNat, BitVec.toNat_ofNatLt]

/-- Any character of a buffer a prompt run confirms was either already
in the starting buffer or is a non-control byte below 128. -/
lemma editorPrompt_confirmed_chars {σ : Type} (cb : List Char → Nat → σ → σ) :
    ∀ (keys : List Nat) (buf : List Char) (s : σ) (conf : List Char) (s2 : σ),
      editorPrompt cb keys buf s = (.confirmed conf, s2) →
      ∀ ch ∈ conf, ch ∈ buf ∨ (iscntrl ch.toNat = false ∧ ch.toNat < 128) := by
  intro keys
  induction keys with
  | nil =>
    intro buf s conf s2 h
    simp [editorPrompt] at h
  | cons c keys ih =>
    intro buf s conf s2 h
    simp only [editorPrompt] at h
    split_ifs at h with h1 h2 h3 h4
    · intro ch hch
      rcases ih _ _ _ _ h ch hch with hin | hp
      · exact Or.inl (List.dropLast_sublist buf |>.mem hin)
      · exact Or.inr hp
    · simp at h
    · rcases h4 with h4
      simp only [Prod.mk.injEq, PromptResult.confirmed.injEq] at h
      intro ch hch
      exact Or.inl (h.1 ▸ hch)
    · exact ih _ _ _ _ h
    · intro ch hch
      rcases ih _ _ _ _ h ch hch with hin | hp
      · rcases List.mem_append.mp hin with hin2 | hin2
        · exact Or.inl hin2
        · have hc : ch = Char.ofNat c := by simpa using hin2
          rename_i hprint
          refine Or.inr ?_
          rw [hc, toNat_ofNat_of_lt c hprint.2]
          exact ⟨hprint.1, hprint.2⟩
      · exact Or.inr hp
    · exact ih _ _ _ _ h

/-- C9: the line prompt confirms on Enter (13) only with a non-empty
buffer, returning it after invoking the callback on that Enter; an
Enter on an empty buffer is ignored and the prompt stays open; Escape
(27) cancels — returning no buffer — after invoking the callback on
that Escape; every confirmed buffer contains, beyond what the prompt
started with, only non-control bytes below 128; and on every other
keystroke the loop continues with the callback invoked once on the
updated buffer and that key. -/
theorem c9_prompt {σ : Type} (cb : List Char → Nat → σ → σ) :
    (∀ keys buf s, buf.length ≠ 0 →
      editorPrompt cb (13 :: keys) buf s = (.confirmed buf, cb buf 13 s)) ∧
    (∀ keys s,
      editorPrompt cb (13 :: keys) [] s = editorPrompt cb keys [] (cb [] 13 s)) ∧
    (∀ keys buf s,
      editorPrompt cb (27 :: keys) buf s = (.cancelled, cb buf 27 s)) ∧
    (∀ keys buf s conf s2,
      editorPrompt cb keys buf s = (.confirmed conf, s2) →
      ∀ ch ∈ conf, ch ∈ buf ∨ (iscntrl ch.toNat = false ∧ ch.toNat < 128)) ∧
    (∀ c keys buf s, c ≠ 27 → c ≠ 13 →
      ∃ buf2, editorPrompt cb (c :: keys) buf s =
        editorPrompt cb keys buf2 (cb buf2 c s)) := by
  refine ⟨?_, ?_, ?_, editorPrompt_confirmed_chars cb, ?_⟩
  · intro keys buf s h
    simp [editorPrompt, DEL_KEY, BACKSPACE, h]
  · intro keys s
    simp [editorPrompt, DEL_KEY, BACKSPACE]
  · intro keys buf s
    simp [editorPrompt, DEL_KEY, BACKSPACE]
  · intro c keys buf s h27 h13
    simp only [editorPrompt]
    split_ifs
    · exact ⟨buf.dropLast, rfl⟩
    · exact ⟨buf ++ [Char.ofNat c], rfl⟩
    · exact ⟨buf, rfl⟩

/-- C9 witness: a session typing `"ab"` then Enter (confirm), an empty
Enter that keeps the prompt open, and an Escape cancel, with a counting
callback showing one invocation per keystroke. -/
theorem c9_prompt_witness :
    editorPrompt (fun _ _ (n : Nat) => n + 1) [13] ['a'] 0 =
      (.confirmed ['a'], 1) ∧
    editorPrompt (fun _ _ (n : Nat) => n + 1) [13, 27] [] 0 =
      editorPrompt (fun _ _ (n : Nat) => n + 1) [27] [] 1 ∧
    editorPrompt (fun _ _ (n : Nat) => n + 1) [27] ['a'] 5 = (.cancelled, 6) ∧
    (∀ ch ∈ (['x', 'y'] : List Char),
      ch ∈ (['x'] : List Char) ∨ (iscntrl ch.toNat = false ∧ ch.toNat < 128)) ∧
    (∃ buf2, editorPrompt (fun _ _ (n : Nat) => n + 1) [121, 13] ['x'] 0 =
      editorPrompt (fun _ _ (n : Nat) => n + 1) [13] buf2
        ((fun _ _ (n : Nat) => n + 1) buf2 121 0)) :=
  ⟨(c9_prompt (fun _ _ (n : Nat) => n + 1)).1 [] ['a'] 0 (by decide),
   (c9_prompt (fun _ _ (n : Nat) => n + 1)).2.1 [27] 0,
   (c9_prompt (fun _ _ (n : Nat) => n + 1)).2.2.1 [] ['a'] 5,
   (c9_prompt (fun _ _ (n : Nat) => n + 1)).2.2.2.1 [121, 13] ['x'] 0 ['x', 'y'] 2
     (by decide),
   (c9_prompt (fun _ _ (n : Nat) => n + 1)).2.2.2.2 121 [13] ['x'] 0
     (by decide) (by decide)⟩

/-- `getD` after `set` at the written index. -/
lemma list_getD_set_self {α : Type} (l : List α) :
    ∀ (i : Nat) (a d : α), i < l.length → (l.set i a).getD i d = a := by
  induction l with
  | nil => intro i a d h; simp at h
  | cons x xs ih =>
    intro i a d h
    cases i with
    | zero => rfl
    | succ n => exact ih n a d (by simpa using h)

/-- `getD` after `set` at a different index. -/
lemma list_getD_set_ne {α : Type} (l : List α) :
    ∀ (i j : Nat) (a d : α), i ≠ j → (l.set i a).getD j d = l.getD j d := by
  induction l with
  | nil => intro i j a d h; simp [List.set]
  | cons x xs ih =>
    intro i j a d h
    cases i with
    | zero =>
      cases j with
      | zero => exact absurd rfl h
      | succ m => rfl
    | succ n =>
      cases j with
      | zero => rfl
      | succ m => exact ih n m a d (by omega)

/-- `getD` of a one-element append, at the old length. -/
lemma list_getD_concat {α : Type} (l : List α) (x d : α) :
    (l ++ [x]).getD l.length d = x := by
  induction l with
  | nil => rfl
  | cons y ys ih => simpa using ih

/-- `getD` after `eraseIdx`, below the erased index. -/
lemma list_getD_eraseIdx_lt {α : Type} (l : List α) :
    ∀ (i j : Nat) (d : α), j < i → (l.eraseIdx i).getD j d = l.getD j d := by
  induction l with
  | nil => intro i j d h; simp [List.eraseIdx]
  | cons x xs ih =>
    intro i j d h
    cases i with
    | zero => omega
    | succ n =>
      cases j with
      | zero => rfl
      | succ m => exact ih n m d (by omega)

/-- Inserting a row at `at ≤ length` grows the list by one. -/
lemma insert_rows_length {α : Type} (l : List α) (a : Nat) (s : α)
    (h : a ≤ l.length) :
    (l.take a ++ [s] ++ l.drop a).length = l.length + 1 := by
  simp [List.length_take, List.length_drop]
  omega

/-- `editorRowInsertChar` grows the row by exactly one byte. -/
lemma editorRowInsertChar_length (chars : List Char) (a : Nat) (c : Char) :
    (editorRowInsertChar chars a c).length = chars.length + 1 := by
  unfold editorRowInsertChar
  dsimp only
  split_ifs <;> simp [List.length_take, List.length_drop] <;> omega

/-- The final `cx` clamp of `editorMoveCursor` establishes the full
cursor invariant from `cy ≤ numrows` alone. -/
lemma cursorClampCx_inv (st : EditorState) (h : st.cy ≤ st.rows.length) :
    editorInv (cursorClampCx st) := by
  unfold cursorClampCx editorInv
  dsimp only
  split_ifs with hgt
  · refine ⟨h, Nat.le_refl _, fun hcy => ?_⟩
    have hd : st.rows.getD st.cy [] = [] := by
      rw [hcy]
      exact List.getD_eq_default _ _ (Nat.le_refl _)
    show (st.rows.getD st.cy []).length = 0
    rw [hd]
    rfl
  · refine ⟨h, Nat.le_of_not_lt hgt, fun hcy => ?_⟩
    have hd : st.rows.getD st.cy [] = [] := by
      rw [hcy]
      exact List.getD_eq_default _ _ (Nat.le_refl _)
    rw [hd] at hgt
    simpa using Nat.le_of_not_lt hgt

/-- `editorMoveCursor` does not touch the document. -/
lemma editorMoveCursor_rows (st : EditorState) (key : Nat) :
    (editorMoveCursor st key).rows = st.rows := by
  unfold editorMoveCursor cursorClampCx
  dsimp only
  split_ifs <;> rfl

/-- Arrow movement preserves the cursor invariant; only `cy ≤ numrows`
is needed beforehand, the final clamp repairs `cx`. -/
lemma editorMoveCursor_inv (st : EditorState) (key : Nat)
    (h : st.cy ≤ st.rows.length) :
    editorInv (editorMoveCursor st key) := by
  unfold editorMoveCursor
  apply cursorClampCx_inv
  dsimp only
  split_ifs <;> first | omega | (dsimp only; omega)

/-- The page-move loop preserves the invariant after at least one step. -/
lemma moveCursorTimes_inv (key : Nat) :
    ∀ (n : Nat) (st : EditorState), st.cy ≤ st.rows.length →
      editorInv (moveCursorTimes st key (n + 1)) := by
  intro n
  induction n with
  | zero =>
    intro st h
    exact editorMoveCursor_inv st key h
  | succ m ih =>
    intro st h
    have h1 := editorMoveCursor_inv st key h
    have h2 : (editorMoveCursor st key).cy ≤ (editorMoveCursor st key).rows.length :=
      h1.1
    exact ih (editorMoveCursor st key) h2

/-- Character insertion preserves the cursor invariant. -/
lemma editorInsertChar_inv (st : EditorState) (c : Char) (h : editorInv st) :
    editorInv (editorInsertChar st c) := by
  obtain ⟨h1, h2, h3⟩ := h
  unfold editorInsertChar editorInsertRow
  by_cases hcy : st.cy = st.rows.length
  · have hx0 : st.cx = 0 := h3 hcy
    rw [if_pos hcy, if_neg (by omega)]
    dsimp only
    simp only [List.take_length, List.drop_length, List.append_nil]
    unfold editorInv
    dsimp only
    have hg : (st.rows ++ [([] : List Char)]).getD st.cy [] = [] := by
      rw [hcy]
      exact list_getD_concat st.rows [] []
    constructor
    · simp [List.length_set]
      omega
    constructor
    · rw [list_getD_set_self _ _ _ _ (by simp; omega)]
      rw [editorRowInsertChar_length, hg]
      omega
    · intro hcy2
      simp [List.length_set] at hcy2
      omega
  · rw [if_neg hcy]
    have hlt : st.cy < st.rows.length := by omega
    unfold editorInv
    dsimp only
    constructor
    · simp [List.length_set]
      omega
    constructor
    · rw [list_getD_set_self _ _ _ _ hlt]
      rw [editorRowInsertChar_length]
      omega
    · intro hcy2
      simp [List.length_set] at hcy2
      omega

/-- Newline insertion preserves the cursor invariant. -/
lemma editorInsertNewline_inv (st : EditorState) (h : editorInv st) :
    editorInv (editorInsertNewline st) := by
  obtain ⟨h1, h2, h3⟩ := h
  unfold editorInsertNewline editorInsertRow
  by_cases hx : st.cx = 0
  · have hg : ¬ st.cy > st.rows.length := by omega
    rw [if_pos hx, if_neg hg]
    unfold editorInv
    dsimp only
    refine ⟨?_, Nat.zero_le _, fun _ => rfl⟩
    rw [insert_rows_length st.rows st.cy [] h1]
    omega
  · have hlt : st.cy < st.rows.length := by
      rcases Nat.lt_or_ge st.cy st.rows.length with hc | hc
      · exact hc
      · exact absurd (h3 (by omega)) hx
    have hg : ¬ st.cy + 1 > st.rows.length := by omega
    rw [if_neg hx]
    dsimp only
    rw [if_neg hg]
    unfold editorInv
    dsimp only
    refine ⟨?_, Nat.zero_le _, fun _ => rfl⟩
    rw [List.length_set,
      insert_rows_length st.rows (st.cy + 1) _ (by omega)]
    omega

/-- Character deletion preserves the cursor invariant. -/
lemma editorDelChar_inv (st : EditorState) (h : editorInv st) :
    editorInv (editorDelChar st) := by
  obtain ⟨h1, h2, h3⟩ := h
  unfold editorDelChar editorDelRow
  by_cases hcy : st.cy = st.rows.length
  · rw [if_pos hcy]
    exact ⟨h1, h2, h3⟩
  rw [if_neg hcy]
  have hlt : st.cy < st.rows.length := by omega
  by_cases hz : st.cx = 0 ∧ st.cy = 0
  · rw [if_pos hz]
    exact ⟨h1, h2, h3⟩
  rw [if_neg hz]
  dsimp only
  by_cases hx : 0 < st.cx
  · have hg : ¬ st.cx - 1 ≥ (st.rows.getD st.cy []).length := by omega
    rw [if_pos hx, if_neg hg]
    unfold editorInv
    dsimp only
    have he : ((st.rows.getD st.cy []).eraseIdx (st.cx - 1)).length + 1 =
        (st.rows.getD st.cy []).length :=
      List.length_eraseIdx_add_one (by omega)
    refine ⟨?_, ?_, ?_⟩
    · rw [List.length_set]
      omega
    · rw [list_getD_set_self _ _ _ _ hlt]
      omega
    · intro hcy2
      rw [List.length_set] at hcy2
      omega
  · have hy : 0 < st.cy := by
      rcases Nat.eq_zero_or_pos st.cy with h0 | h0
      · exact absurd ⟨by omega, h0⟩ hz
      · exact h0
    have hguard : ¬ st.cy ≥
        (st.rows.set (st.cy - 1)
          (st.rows.getD (st.cy - 1) [] ++ st.rows.getD st.cy [])).length := by
      rw [List.length_set]
      omega
    rw [if_neg hx, if_neg hguard]
    unfold editorInv
    dsimp only
    have he : (((st.rows.set (st.cy - 1)
        (st.rows.getD (st.cy - 1) [] ++ st.rows.getD st.cy [])).eraseIdx
          st.cy).length) + 1 =
        (st.rows.set (st.cy - 1)
          (st.rows.getD (st.cy - 1) [] ++ st.rows.getD st.cy [])).length :=
      List.length_eraseIdx_add_one (by rw [List.length_set]; omega)
    refine ⟨?_, ?_, ?_⟩
    · rw [List.length_set] at he
      omega
    · rw [list_getD_eraseIdx_lt _ _ _ _ (by omega),
        list_getD_set_self _ _ _ _ (by omega)]
      simp
    · intro hcy2
      rw [List.length_set] at he
      omega

/-- The search loop (with the forward direction the slip forces) only
ever returns a valid row index. -/
lemma findLoop_lt (rows : List (List Char)) (query : List Char) :
    ∀ (fuel : Nat) (current : Int) (r off : Nat),
      0 < rows.length → -1 ≤ current → current < (rows.length : Int) →
      findLoop rows query current 1 fuel = some (r, off) →
      r < rows.length := by
  intro fuel
  induction fuel with
  | zero =>
    intro current r off hlen h1 h2 h
    simp [findLoop] at h
  | succ n ih =>
    intro current r off hlen h1 h2 h
    simp only [findLoop] at h
    split_ifs at h with h3 h4
    · omega
    · rcases hs : strstr (editorUpdateRow (rows.getD (0 : Int).toNat [])) query
        with _ | off2 <;> rw [hs] at h
      · exact ih 0 r off hlen (by omega) (by omega) h
      · simp only [Option.some.injEq, Prod.mk.injEq] at h
        omega
    · rcases hs : strstr (editorUpdateRow (rows.getD (current + 1).toNat [])) query
        with _ | off2 <;> rw [hs] at h
      · exact ih (current + 1) r off hlen (by omega) (by omega) h
      · simp only [Option.some.injEq, Prod.mk.injEq] at h
        omega

/-- The search callback's cursor jump preserves the cursor invariant,
given its persistent search state anchors a valid row (or none). -/
lemma editorFindCallback_inv (st : EditorState) (fs : FindState)
    (query : List Char) (key : Nat) (h : editorInv st)
    (hlm1 : -1 ≤ fs.last_match) (hlm2 : fs.last_match < (st.rows.length : Int)) :
    editorInv (editorFindCallback st fs query key).1 := by
  unfold editorFindCallback
  by_cases h1 : key = 13 ∨ key = 27
  · rw [if_pos h1]
    exact h
  · rw [if_neg h1]
    dsimp only
    have hc2 : key = ARROW_RIGHT ∨ (ARROW_DOWN : Nat) ≠ 0 := Or.inr (by decide)
    rw [if_pos hc2]
    dsimp only
    split_ifs with h3 <;> dsimp only <;> split
    all_goals first
      | exact h
      | (rename_i r off hF
         have hlen : 0 < st.rows.length := by
           by_contra hc
           have h0 : st.rows.length = 0 := by omega
           rw [h0] at hF
           simp [findLoop] at hF
         have hr : r < st.rows.length :=
           findLoop_lt st.rows query st.rows.length fs.last_match r off hlen
             hlm1 hlm2 hF
         unfold editorInv
         dsimp only
         exact ⟨by omega, editorRowRxToCx_le _ _, fun hh => absurd hh (by omega)⟩)

/-- One keypress-processing step preserves the cursor invariant, given
`screenrows ≥ 1` and `rowoff ≤ numrows` (the latter needed by PageUp,
which copies `rowoff` into `cy` before clamping by moves). -/
lemma editorProcessKeypress_inv (c : Nat) (st : EditorState) (qt : Nat)
    (h : editorInv st) (hscr : 1 ≤ st.screenrows)
    (hro : st.rowoff ≤ st.rows.length) :
    editorInv (editorProcessKeypress c st qt).1 := by
  unfold editorProcessKeypress
  by_cases h13 : c = 13
  · rw [if_pos h13]
    exact editorInsertNewline_inv st h
  rw [if_neg h13]
  by_cases h17 : c = 17
  · rw [if_pos h17]
    split_ifs <;> exact h
  rw [if_neg h17]
  by_cases h19 : c = 19
  · rw [if_pos h19]
    exact h
  rw [if_neg h19]
  by_cases hH : c = HOME_KEY
  · rw [if_pos hH]
    exact ⟨h.1, Nat.zero_le _, fun _ => rfl⟩
  rw [if_neg hH]
  by_cases hE : c = END_KEY
  · rw [if_pos hE]
    split_ifs with hcy
    · unfold editorInv
      dsimp only
      exact ⟨h.1, Nat.le_refl _, fun hh => absurd hh (by omega)⟩
    · exact h
  rw [if_neg hE]
  by_cases h6 : c = 6
  · rw [if_pos h6]
    exact h
  rw [if_neg h6]
  by_cases hDel : c = BACKSPACE ∨ c = 8 ∨ c = DEL_KEY
  · rw [if_pos hDel]
    dsimp only
    split_ifs with hd
    · exact editorDelChar_inv _ (editorMoveCursor_inv st ARROW_RIGHT h.1)
    · exact editorDelChar_inv st h
  rw [if_neg hDel]
  by_cases hP : c = PAGE_UP ∨ c = PAGE_DOWN
  · rw [if_pos hP]
    dsimp only
    obtain ⟨m, hm⟩ : ∃ m, st.screenrows = m + 1 := ⟨st.screenrows - 1, by omega⟩
    rw [hm]
    split_ifs with hpu hbig
    · exact moveCursorTimes_inv ARROW_UP m _ (by dsimp only; omega)
    · exact moveCursorTimes_inv ARROW_DOWN m _ (by dsimp only; omega)
    · exact moveCursorTimes_inv ARROW_DOWN m _ (by dsimp only; omega)
  rw [if_neg hP]
  by_cases hA : c = ARROW_UP ∨ c = ARROW_DOWN ∨ c = ARROW_LEFT ∨ c = ARROW_RIGHT
  · rw [if_pos hA]
    exact editorMoveCursor_inv st c h.1
  rw [if_neg hA]
  by_cases hL : c = 12 ∨ c = 27
  · rw [if_pos hL]
    exact h
  · rw [if_neg hL]
    exact editorInsertChar_inv st (Char.ofNat c) h

/-- C10 counterexample: the claim quantifies over every state satisfying
the cursor bounds (with `screenrows ≥ 1`), but PageUp copies `rowoff`
into `cy` unclamped, so a state with `rowoff > numrows` — which the
stated invariant does not exclude — is driven out of bounds:
here `rowoff = 2`, `screenrows = 1`, `numrows = 0`, and after PageUp
`cy = 1 > numrows`. -/
theorem c10_cursor_inv_counterexample :
    editorInv (EditorState.mk 0 0 0 2 0 1 10 [] 0) ∧
    1 ≤ (EditorState.mk 0 0 0 2 0 1 10 [] 0).screenrows ∧
    ¬ editorInv
        (editorProcessKeypress PAGE_UP (EditorState.mk 0 0 0 2 0 1 10 [] 0) 3).1 := by
  refine ⟨by decide, by decide, by decide⟩

/-- C10 (amended): every keypress-processing step preserves the cursor
bounds invariant — `0 ≤ cy ≤ numrows`, `cx` at most the current row's
length, `cx = 0` on the virtual last line — assuming `screenrows ≥ 1`
and additionally `rowoff ≤ numrows` (which every reachable keypress
state satisfies, `editorScroll` having run before each keypress); and
the search callback's cursor jump preserves the same bounds, given its
persistent anchor `last_match` is -1 or a valid row index. -/
theorem c10_cursor_inv_preserved :
    (∀ (c : Nat) (st : EditorState) (qt : Nat),
      editorInv st → 1 ≤ st.screenrows → st.rowoff ≤ st.rows.length →
      editorInv (editorProcessKeypress c st qt).1) ∧
    (∀ (st : EditorState) (fs : FindState) (query : List Char) (key : Nat),
      editorInv st → -1 ≤ fs.last_match →
      fs.last_match < (st.rows.length : Int) →
      editorInv (editorFindCallback st fs query key).1) :=
  ⟨fun c st qt h hscr hro => editorProcessKeypress_inv c st qt h hscr hro,
   fun st fs query key h h1 h2 => editorFindCallback_inv st fs query key h h1 h2⟩

/-- C10 witness: a PageDown step on a concrete two-row document, and a
search-callback jump (query `"b"` from no anchor) on the same document. -/
theorem c10_cursor_inv_preserved_witness :
    editorInv
      (editorProcessKeypress PAGE_DOWN
        (EditorState.mk 0 0 0 0 0 2 10 [['a'], ['b']] 0) 3).1 ∧
    editorInv
      (editorFindCallback (EditorState.mk 0 0 0 0 0 2 10 [['a'], ['b']] 0)
        (FindState.mk (-1) 1) ['b'] 98).1 :=
  ⟨c10_cursor_inv_preserved.1 PAGE_DOWN
      (EditorState.mk 0 0 0 0 0 2 10 [['a'], ['b']] 0) 3
      (by decide) (by decide) (by decide),
   c10_cursor_inv_preserved.2 (EditorState.mk 0 0 0 0 0 2 10 [['a'], ['b']] 0)
      (FindState.mk (-1) 1) ['b'] 98 (by decide) (by decide) (by decide)⟩
